import Mathlib

set_option maxRecDepth 8000

/-!
Shallow embedding of the htmlsanitizer Go package (src/sanitizer.go).

The package walks an HTML node tree produced by an external parser
(golang.org/x/net/html) and serializes a sanitized string.  The tree,
the policy, and every helper of the walk are embedded below as
executable Lean definitions mirroring the Go source.  Parsing of raw
markup into a tree is the external collaborator's job and is out of
scope; all operations here start from a parsed tree, exactly as the
Go walk does.  The few behaviours supplied by external libraries that
the scheme validator leans on (entity decoding via a synthetic
re-parse, URL scheme extraction via net/url) are modelled from the
spec, as marked on the individual definitions.
-/

namespace HtmlSanitizer

/-- One attribute of an element node: mirrors html.Attribute (the
namespace field is unused by the sanitizer and omitted). -/
structure Attr where
  key : String
  val : String
deriving DecidableEq, Repr

/-- A parsed HTML node, mirroring html.Node's node kinds.  Children are
an ordered list (the Go tree links FirstChild/NextSibling; the walk
only ever iterates them in order).  Comment and doctype nodes carry a
children list so that the walk's refusal to recurse into them is a
fact about the walk, not about the data type; the parser never
populates them. -/
inductive Node where
  | document (children : List Node)
  | element (name : String) (attrs : List Attr) (children : List Node)
  | text (data : String)
  | comment (data : String) (children : List Node)
  | doctype (data : String) (children : List Node)
  | other (children : List Node)
deriving Repr

/-- Children of a node, mirroring iteration over FirstChild/NextSibling. -/
def childrenOf : Node → List Node
  | Node.document cs => cs
  | Node.element _ _ cs => cs
  | Node.text _ => []
  | Node.comment _ cs => cs
  | Node.doctype _ cs => cs
  | Node.other cs => cs

/-- Attributes of a node ([] for non-elements), mirroring n.Attr. -/
def attrsOf : Node → List Attr
  | Node.element _ a _ => a
  | _ => []

/-- ASCII lower-casing, as strings.ToLower behaves on the ASCII tag and
scheme names this package compares. -/
def asciiToLower (s : String) : String :=
  String.mk (s.data.map Char.toLower)

/-- Per-character expansion of html.EscapeString: the five escaped
characters and their replacement entities, verbatim from x/net/html. -/
def escChar (c : Char) : List Char :=
  if c = '&' then "&amp;".data
  else if c = Char.ofNat 39 then "&#39;".data
  else if c = '<' then "&lt;".data
  else if c = '>' then "&gt;".data
  else if c = Char.ofNat 34 then "&#34;".data
  else [c]

/-- html.EscapeString from x/net/html. -/
def escapeString (s : String) : String :=
  String.mk (s.data.foldr (fun c acc => escChar c ++ acc) [])

/-- The white-space characters strings.TrimSpace trims (unicode.IsSpace
on the Latin-1 range). -/
def isSpaceGo (c : Char) : Bool :=
  c = ' ' || c = Char.ofNat 9 || c = Char.ofNat 10 || c = Char.ofNat 11 ||
    c = Char.ofNat 12 || c = Char.ofNat 13 || c = Char.ofNat 0x85 || c = Char.ofNat 0xA0

/-- strings.TrimSpace. -/
def trimSpace (s : String) : String :=
  String.mk (((s.data.dropWhile isSpaceGo).reverse.dropWhile isSpaceGo).reverse)

/-- The control-character strip in schemeAllowed: removes code points
below 0x20 and the delete character 0x7F. -/
def stripCtrl (s : String) : String :=
  String.mk (s.data.filter (fun c => !(decide (c.toNat < 0x20) || decide (c.toNat = 0x7f))))

/-- Value of a hexadecimal digit. -/
def hexVal (c : Char) : Option Nat :=
  if c.isDigit then some (c.toNat - 48)
  else if 'a' ≤ c && c ≤ 'f' then some (c.toNat - 87)
  else if 'A' ≤ c && c ≤ 'F' then some (c.toNat - 55)
  else none

/-- Value of a decimal digit. -/
def decVal (c : Char) : Option Nat :=
  if c.isDigit then some (c.toNat - 48) else none

/-- Longest prefix of digit values under the given digit reader. -/
def digitRun (p : Char → Option Nat) : List Char → List Nat
  | [] => []
  | c :: rest =>
    match p c with
    | some v => v :: digitRun p rest
    | none => []

/-- A numeric character reference's code point, with the replacement
character substituted for the null, surrogate and out-of-range code
points, as the HTML entity decoding of the external parser does. -/
def entityChar (code : Nat) : Char :=
  if code = 0 || decide (0x10FFFF < code) ||
      (decide (0xD800 ≤ code) && decide (code ≤ 0xDFFF)) then
    Char.ofNat 0xFFFD
  else Char.ofNat code

/-- Modelled from the spec: one HTML character reference at the point
just after an ampersand (spec 4.4 step 2 defends against
numeric-character-reference smuggling; the Go code delegates decoding
to the external parser, which is not part of this repository).
Numeric references (decimal and hexadecimal, with or without the
terminating semicolon) and the common named entities are decoded.
Returns the decoded character and how many characters were consumed. -/
def parseEntity (cs : List Char) : Option (Char × Nat) :=
  match cs with
  | '#' :: rest =>
    (match rest with
     | c :: rest2 =>
       if c = 'x' || c = 'X' then
         let ds := digitRun hexVal rest2
         if ds.isEmpty then none
         else
           let code := ds.foldl (fun a v => a * 16 + v) 0
           let k := 2 + ds.length
           some (entityChar code, k + (if (rest2.drop ds.length).head? = some (';') then 1 else 0))
       else
         let ds := digitRun decVal rest
         if ds.isEmpty then none
         else
           let code := ds.foldl (fun a v => a * 10 + v) 0
           let k := 1 + ds.length
           some (entityChar code, k + (if (rest.drop ds.length).head? = some (';') then 1 else 0))
     | [] => none)
  | _ =>
    if List.isPrefixOf "amp;".data cs then some ('&', 4)
    else if List.isPrefixOf "lt;".data cs then some ('<', 3)
    else if List.isPrefixOf "gt;".data cs then some ('>', 3)
    else if List.isPrefixOf "quot;".data cs then some (Char.ofNat 34, 5)
    else if List.isPrefixOf "apos;".data cs then some (Char.ofNat 39, 5)
    else if List.isPrefixOf "colon;".data cs then some (':', 6)
    else if List.isPrefixOf "nbsp;".data cs then some (Char.ofNat 0xA0, 5)
    else none

/-- Entity-decoding loop over a character list.  The first argument is
fuel (always called with the list length, which bounds the number of
steps since every step consumes at least one character); it only makes
the recursion structural. -/
def decodeLoop : Nat → List Char → List Char
  | 0, _ => []
  | _ + 1, [] => []
  | f + 1, c :: rest =>
    if c = '&' then
      match parseEntity rest with
      | some (ch, k) => ch :: decodeLoop f (rest.drop k)
      | none => c :: decodeLoop f rest
    else c :: decodeLoop f rest

/-- The white-space characters the HTML tokenizer treats as attribute
separators. -/
def isTokSpace (c : Char) : Bool :=
  c = ' ' || c = Char.ofNat 9 || c = Char.ofNat 10 || c = Char.ofNat 12 || c = Char.ofNat 13

/-- The href candidate an anchor token collects: the first href
attribute of the token wins (later duplicates are ignored, matching
the walk over the parsed attribute list), and its value is
entity-decoded as the tokenizer decodes attribute values. -/
def hrefUpd (isA : Bool) (cur : Option String) (key v : List Char) : Option String :=
  if isA = true ∧ cur = none ∧ asciiToLower (String.mk key) = "href" then
    some (String.mk (decodeLoop v.length v))
  else cur

/-- Position just after the first comment terminator, for skipping
markup-declaration tokens. -/
def dropThroughComment : List Char → List Char
  | [] => []
  | c :: r =>
    if List.isPrefixOf "-->".data (c :: r) then (c :: r).drop 3
    else dropThroughComment r

mutual

/-- Modelled from the spec (4.4 step 2 together with the section 9
known-fragility note: the decode re-parses a synthetic fragment via
the external parser, an implementation-dependent trick that is a
reference, not a guaranteed contract).  Attribute scan of one tag
token of the re-parsed fragment, as the HTML tokenizer reads it:
white space and stray slashes are skipped, an attribute key runs to
white space, equals, slash or the closing angle bracket, and its
value is double-quoted, single-quoted, or unquoted (to white space or
the closing bracket).  A token ending at end of input is dropped.  On
the token's closing bracket the anchor's collected href (if any)
replaces the last-seen href and scanning resumes. -/
def scanTag : Nat → List Char → Bool → Option String → Option String → Option String
  | 0, _, _, _, acc => acc
  | _ + 1, [], _, _, acc => acc
  | f + 1, c :: rest, isA, cur, acc =>
    if c = '>' then
      anchorScan f rest (match cur with | some h => some h | none => acc)
    else if isTokSpace c || c = '/' then scanTag f rest isA cur acc
    else
      let key := (c :: rest).takeWhile
        (fun x => !(isTokSpace x || x = '=' || x = '>' || x = '/'))
      let r1 := (c :: rest).drop key.length
      let r2 := r1.dropWhile isTokSpace
      match r2 with
      | '=' :: r3 =>
        let r4 := r3.dropWhile isTokSpace
        (match r4 with
         | q :: r5 =>
           if q = Char.ofNat 34 || q = Char.ofNat 39 then
             let v := r5.takeWhile (fun x => x ≠ q)
             scanTag f ((r5.drop v.length).drop 1) isA (hrefUpd isA cur key v) acc
           else
             let v := r4.takeWhile (fun x => !(isTokSpace x || x = '>'))
             scanTag f (r4.drop v.length) isA (hrefUpd isA cur key v) acc
         | [] => scanTag f [] isA cur acc)
      | _ => scanTag f r2 isA cur acc

/-- Modelled from the spec (see scanTag): scan of the re-parsed
synthetic fragment for anchor tokens, mirroring the walk of
htmlDecodeMinimal over the resulting tree: the walk keeps overwriting
its result, so the href of the last anchor element wins — and the raw
attribute value itself can inject further anchors after an embedded
double quote.  Open tags start at an angle bracket followed by a
letter; end tags are scanned like tags (their attributes discarded);
comments, doctypes and bogus comments are skipped; any other angle
bracket is literal text.  The accumulator holds the href of the last
anchor seen. -/
def anchorScan : Nat → List Char → Option String → Option String
  | 0, _, acc => acc
  | _ + 1, [], acc => acc
  | f + 1, c :: rest, acc =>
    if c = '<' then
      match rest with
      | [] => acc
      | c2 :: rest2 =>
        if c2.isAlpha then
          let name := (c2 :: rest2).takeWhile
            (fun x => !(isTokSpace x || x = '/' || x = '>'))
          scanTag f ((c2 :: rest2).drop name.length)
            (asciiToLower (String.mk name) = "a") none acc
        else if c2 = '/' then
          scanTag f rest2 false none acc
        else if c2 = '!' then
          if List.isPrefixOf "--".data rest2 then
            anchorScan f (dropThroughComment (rest2.drop 2)) acc
          else anchorScan f ((rest2.dropWhile (fun x => x ≠ '>')).drop 1) acc
        else if c2 = '?' then
          anchorScan f ((rest2.dropWhile (fun x => x ≠ '>')).drop 1) acc
        else anchorScan f rest acc
    else anchorScan f rest acc

end

/-- htmlDecodeMinimal from src/sanitizer.go: the raw value is embedded
in the synthetic fragment built from "<a href=", a double quote, the
value, a double quote and a closing bracket, the fragment is re-parsed
and the tree walked for anchors; the walk's early return only leaves
one recursive invocation, so the sibling loop continues and the href
of the LAST anchor with an href wins — an anchor the raw value itself
can inject after an embedded double quote.  When the value contains no
double quote the fragment holds exactly one anchor whose href is the
value entity-decoded (the quoted attribute value runs to the fragment's
own closing quote), computed directly in the first branch; otherwise
the fragment re-scan decides (anchorScan, modelled from the spec).  A
decode producing the empty string (or no anchor) returns the raw input
unchanged. -/
def htmlDecodeMinimal (s : String) : String :=
  if s.data.contains (Char.ofNat 34) then
    let frag := "<a href=\"".data ++ s.data ++ "\">".data
    match anchorScan frag.length frag none with
    | some found => if found = "" then s else found
    | none => s
  else
    let d := String.mk (decodeLoop s.data.length s.data)
    if d = "" then s else d

/-- Result of net/url's scheme scan. -/
inductive SchemeScan where
  | errStart
  | noScheme
  | found (sch : String)
deriving DecidableEq, Repr

/-- Modelled from the spec: the scheme scan of net/url's getScheme
(spec 4.4 step 4 parses the normalized value as a URL; net/url is not
part of this repository).  A scheme is an ASCII letter followed by
letters, digits, plus, minus or dot, terminated by a colon; a leading
colon is a parse error; anything else means the URL has no scheme. -/
def getScheme (cs : List Char) : SchemeScan :=
  match cs with
  | [] => SchemeScan.noScheme
  | c :: rest =>
    if c = ':' then SchemeScan.errStart
    else if c.isAlpha then
      let run := rest.takeWhile (fun x => x.isAlpha || x.isDigit || x = '+' || x = '-' || x = '.')
      match (rest.drop run.length).head? with
      | some ch => if ch = ':' then SchemeScan.found (String.mk (c :: run)) else SchemeScan.noScheme
      | none => SchemeScan.noScheme
    else SchemeScan.noScheme

/-- Modelled from the spec: url.Parse reduced to what schemeAllowed
consumes — the scheme, or a parse failure (none).  The fragment is
split off first and the query before the first-segment check, as in
net/url; a scheme-less URL whose first path segment contains a colon
is a parse error.  Other net/url failure modes (invalid percent
escapes, host syntax) are not modelled; they only cause additional
rejection in the Go code. -/
def parseURLScheme (s : String) : Option String :=
  let cs := s.data.takeWhile (fun c => c ≠ '#')
  match getScheme cs with
  | SchemeScan.errStart => none
  | SchemeScan.found sch => some sch
  | SchemeScan.noScheme =>
    let rest := cs.takeWhile (fun c => c ≠ '?')
    if rest.head? = some '/' then some ""
    else if (rest.takeWhile (fun c => c ≠ '/')).contains ':' then none
    else some ""

/-- The normalization pipeline of schemeAllowed, in the source's
order: trim surrounding white space, entity-decode, trim and
lower-case the decoded value, strip control characters. -/
def normalizeURL (raw : String) : String :=
  stripCtrl (asciiToLower (trimSpace (htmlDecodeMinimal (trimSpace raw))))

/-- schemeAllowed from src/sanitizer.go: normalize the raw value, then
parse it as a URL; a parse failure rejects, an empty scheme (relative
reference) is accepted, otherwise membership in the (already
lower-cased) scheme set decides.  The schemes argument corresponds to
the set sliceToSet builds from Policy.AllowedSchemes. -/
def schemeAllowed (raw : String) (schemes : List String) : Bool :=
  match parseURLScheme (normalizeURL raw) with
  | none => false
  | some sch => if sch = "" then true else schemes.contains (asciiToLower sch)

/-- attrAllowed from src/sanitizer.go: the wildcard entry and the
tag-specific entry of AllowedAttributes are consulted in that order;
attribute keys are compared case-sensitively.  Go's map is modelled as
an association list with first-match lookup (map keys are unique). -/
def attrAllowed (attr tag : String) (allowed : List (String × List String)) : Bool :=
  (match allowed.lookup "*" with
   | some l => l.contains attr
   | none => false) ||
  (match allowed.lookup tag with
   | some l => l.contains attr
   | none => false)

/-- The three URL-bearing attribute keys subject to scheme validation. -/
def urlAttrKey (k : String) : Bool :=
  k = "href" || k = "src" || k = "action"

/-- filterAttrs from src/sanitizer.go: keep an attribute iff its key is
allowed for the tag, and additionally, for href/src/action keys, the
scheme validator approves the value. -/
def filterAttrs (attrs : List Attr) (tag : String) (allowed : List (String × List String))
    (schemes : List String) : List Attr :=
  match attrs with
  | [] => []
  | a :: rest =>
    if attrAllowed a.key tag allowed && (!urlAttrKey a.key || schemeAllowed a.val schemes) then
      a :: filterAttrs rest tag allowed schemes
    else filterAttrs rest tag allowed schemes

/-- isVoidElement from src/sanitizer.go. -/
def isVoidElement (tag : String) : Bool :=
  tag = "area" || tag = "base" || tag = "br" || tag = "col" || tag = "embed" ||
    tag = "hr" || tag = "img" || tag = "input" || tag = "link" || tag = "meta" ||
    tag = "param" || tag = "source" || tag = "track" || tag = "wbr"

/-- One attribute as renderOpenTag writes it: raw key and raw value. -/
def attrRaw (a : Attr) : String :=
  " " ++ a.key ++ "=\"" ++ a.val ++ "\""

/-- renderOpenTag from src/sanitizer.go: the original (not lower-cased)
tag name and the attribute values taken verbatim. -/
def renderOpenTag (name : String) (attrs : List Attr) : String :=
  "<" ++ name ++ String.join (attrs.map attrRaw) ++ ">"

/-- One attribute as the allowed-element serializer writes it: raw key,
escaped value. -/
def attrOut (a : Attr) : String :=
  " " ++ a.key ++ "=\"" ++ escapeString a.val ++ "\""

/-- The attribute run of a serialized open tag. -/
def attrsOut (attrs : List Attr) : String :=
  String.join (attrs.map attrOut)

/-- Body-character test of urlRegexp's interior class: everything but
Perl white space, angle brackets and the double quote. -/
def urlBodyChar (c : Char) : Bool :=
  !(c = ' ' || c = Char.ofNat 9 || c = Char.ofNat 10 || c = Char.ofNat 12 ||
    c = Char.ofNat 13 || c = '<' || c = '>' || c = Char.ofNat 34)

/-- The trailing punctuation urlRegexp's final character class refuses. -/
def urlPunct (c : Char) : Bool :=
  c = '.' || c = ',' || c = ';' || c = ':' || c = '!' || c = '?' || c = ')' || c = ']'

/-- Leftmost greedy match of urlRegexp at the start of the list: a
scheme prefix, then the longest run of body characters whose last
character is not trailing punctuation, at least two characters long.
Returns the total match length. -/
def urlMatchAt (cs : List Char) : Option Nat :=
  let tryPre : List Char → Option Nat := fun pre =>
    if List.isPrefixOf pre cs then
      let run := (cs.drop pre.length).takeWhile urlBodyChar
      let body := (run.reverse.dropWhile urlPunct).reverse
      if 2 ≤ body.length then some (pre.length + body.length) else none
    else none
  match tryPre "https://".data with
  | some n => some n
  | none => tryPre "http://".data

/-- The anchor writeLinkedText emits for one matched URL. -/
def anchorFor (url : String) : String :=
  "<a href=\"" ++ escapeString url ++ "\" rel=\"noopener noreferrer\">" ++
    escapeString url ++ "</a>"

/-- Scan loop of writeLinkedText: pending holds the literal segment
accumulated in reverse; at each position either a URL match is emitted
(preceded by the escaped pending literal) or one character is moved to
pending.  The fuel argument is always the remaining length and only
makes the recursion structural. -/
def linkLoop : Nat → List Char → List Char → String
  | 0, pending, rest => escapeString (String.mk (pending.reverse ++ rest))
  | _ + 1, pending, [] => escapeString (String.mk pending.reverse)
  | f + 1, pending, c :: rest =>
    match urlMatchAt (c :: rest) with
    | some len =>
      escapeString (String.mk pending.reverse) ++
        anchorFor (String.mk ((c :: rest).take len)) ++
        linkLoop f [] ((c :: rest).drop len)
    | none => linkLoop f (c :: pending) rest

/-- writeLinkedText from src/sanitizer.go: escape the text between
urlRegexp matches and wrap each match in an anchor carrying a
noopener noreferrer relation. -/
def writeLinkedText (s : String) : String :=
  linkLoop s.data.length [] s.data

/-- Policy from src/sanitizer.go, for the transformer-free fragment of
the engine (the walk with a transformer chain is walkF below, over
PolicyT, which extends this structure with the chain; an empty chain
is the identity, see the bridge lemmas).  MaxDepth is a Nat: the Go
field is an int guarded by MaxDepth > 0, so non-positive values all
mean unlimited. -/
structure Policy where
  allowedTags : List String
  allowedAttributes : List (String × List String)
  allowedSchemes : List String
  stripDisallowed : Bool
  linkify : Bool
  maxDepth : Nat

/-- The lower-cased tag set sliceToSet builds from AllowedTags. -/
def tagSet (p : Policy) : List String :=
  p.allowedTags.map asciiToLower

/-- Membership of a (lower-cased) tag in the allowed-tag set. -/
def tagAllowedB (tag : String) (p : Policy) : Bool :=
  (tagSet p).contains tag

/-- The lower-cased scheme set sliceToSet builds from AllowedSchemes. -/
def schemeSet (p : Policy) : List String :=
  p.allowedSchemes.map asciiToLower

/-- DefaultPolicy from src/sanitizer.go.  Absent Go fields take their
zero values: Linkify false, MaxDepth 0, and StripDisallowed is set to
false explicitly in the source. -/
def DefaultPolicy : Policy where
  allowedTags :=
    ["h1", "h2", "h3", "h4", "h5", "h6",
     "p", "br", "hr",
     "b", "i", "em", "strong", "u", "s", "strike", "del", "ins",
     "a", "img",
     "ul", "ol", "li",
     "table", "thead", "tbody", "tfoot", "tr", "th", "td",
     "code", "pre", "kbd", "samp",
     "blockquote", "cite", "q",
     "figure", "figcaption",
     "div", "span", "section", "article", "header", "footer",
     "details", "summary",
     "abbr", "acronym", "address",
     "sup", "sub"]
  allowedAttributes :=
    [("a", ["href", "title", "target", "rel"]),
     ("img", ["src", "alt", "title", "width", "height", "loading"]),
     ("td", ["colspan", "rowspan", "align", "valign"]),
     ("th", ["colspan", "rowspan", "align", "valign", "scope"]),
     ("blockquote", ["cite"]),
     ("q", ["cite"]),
     ("abbr", ["title"]),
     ("acronym", ["title"]),
     ("*", ["id", "class", "lang", "dir"])]
  allowedSchemes := ["http", "https", "mailto"]
  stripDisallowed := false
  linkify := false
  maxDepth := 0

/-- StrictPolicy from src/sanitizer.go. -/
def StrictPolicy : Policy where
  allowedTags := ["b", "i", "em", "strong", "br", "p", "ul", "ol", "li"]
  allowedAttributes := []
  allowedSchemes := ["https"]
  stripDisallowed := true
  linkify := false
  maxDepth := 0

mutual

/-- The walk closure of SanitizeReader (src/sanitizer.go lines
142-217), for a policy without transformers (an empty transformer
chain is the identity; walkF below carries the chain).  Text is
escaped or linkified; an element is allowed iff its lower-cased tag is
in the tag set and, when MaxDepth is positive, its depth does not
exceed it; allowed elements are re-serialized with filtered
attributes; disallowed elements are dropped with their subtree in
strip mode, or emitted as escaped literal tag text around their
normally-walked children in escape mode; document and unrecognized
nodes are transparent; comment and doctype nodes emit nothing and are
not recursed into. -/
def walk (p : Policy) : Node → Nat → String
  | Node.text s, _ => if p.linkify then writeLinkedText s else escapeString s
  | Node.element name attrs cs, d =>
    let tag := asciiToLower name
    let tooDeep := decide (0 < p.maxDepth) && decide (p.maxDepth < d)
    if tagAllowedB tag p && !tooDeep then
      let fa := filterAttrs attrs tag p.allowedAttributes (schemeSet p)
      if isVoidElement tag then "<" ++ tag ++ attrsOut fa ++ " />"
      else "<" ++ tag ++ attrsOut fa ++ ">" ++ walkList p cs (d + 1) ++ "</" ++ tag ++ ">"
    else if p.stripDisallowed then ""
    else
      escapeString (renderOpenTag name attrs) ++ walkList p cs (d + 1) ++
        (if isVoidElement tag then "" else escapeString ("</" ++ tag ++ ">"))
  | Node.document cs, d => walkList p cs d
  | Node.comment _ _, _ => ""
  | Node.doctype _ _, _ => ""
  | Node.other cs, d => walkList p cs d

/-- The walk applied to a run of siblings in order. -/
def walkList (p : Policy) : List Node → Nat → String
  | [], _ => ""
  | n :: ns, d => walk p n d ++ walkList p ns d

end

mutual

/-- findBody from src/sanitizer.go: depth-first search for the first
element named body (the name the parser produces is already lower
case; the comparison is verbatim). -/
def findBody : Node → Option Node
  | Node.element name attrs cs =>
    if name = "body" then some (Node.element name attrs cs) else findBodyList cs
  | Node.document cs => findBodyList cs
  | Node.text _ => none
  | Node.comment _ cs => findBodyList cs
  | Node.doctype _ cs => findBodyList cs
  | Node.other cs => findBodyList cs

/-- findBody over a run of siblings. -/
def findBodyList : List Node → Option Node
  | [] => none
  | n :: ns =>
    match findBody n with
    | some b => some b
    | none => findBodyList ns

end

/-- SanitizeReader from src/sanitizer.go, after the external parse:
walk the children of the body element at depth 1, falling back to the
document root at depth 0 when no body is present. -/
def SanitizeDoc (p : Policy) (doc : Node) : String :=
  match findBody doc with
  | some b => walkList p (childrenOf b) 1
  | none => walk p doc 0

/-- The engine applied to the children of the body element, the form
in which every parsed fragment reaches the walk. -/
def sanitizeBody (p : Policy) (ns : List Node) : String :=
  walkList p ns 1

/-- SanitizeReader's nil-policy replacement: a missing (nil) policy is
replaced by DefaultPolicy; any supplied policy value is used as-is. -/
def SanitizeDocOpt (p : Option Policy) (doc : Node) : String :=
  SanitizeDoc (p.getD DefaultPolicy) doc

mutual

/-- The walk closure of StripTags: concatenate the data of every text
node, recursing into the children of every node. -/
def textContent : Node → String
  | Node.text s => s
  | Node.document cs => textContentList cs
  | Node.element _ _ cs => textContentList cs
  | Node.comment _ cs => textContentList cs
  | Node.doctype _ cs => textContentList cs
  | Node.other cs => textContentList cs

/-- textContent over a run of siblings. -/
def textContentList : List Node → String
  | [] => ""
  | n :: ns => textContent n ++ textContentList ns

end

/-- StripTags from src/sanitizer.go, after the external parse: the
text content of the body element, or of the whole document when no
body is present. -/
def StripTags (doc : Node) : String :=
  match findBody doc with
  | some b => textContent b
  | none => textContent doc

/-- SetAttr from src/sanitizer.go, on the attribute list it mutates:
the first attribute with the key has its value replaced in place;
otherwise the attribute is appended. -/
def SetAttr (attrs : List Attr) (key val : String) : List Attr :=
  match attrs with
  | [] => [⟨key, val⟩]
  | a :: rest => if a.key = key then ⟨a.key, val⟩ :: rest else a :: SetAttr rest key val

/-- GetAttr from src/sanitizer.go: the value of the first attribute
with the key, or the empty string. -/
def GetAttr (attrs : List Attr) (key : String) : String :=
  match attrs with
  | [] => ""
  | a :: rest => if a.key = key then a.val else GetAttr rest key

/-- RemoveAttr from src/sanitizer.go: every attribute with the key is
removed; the filtering loop keeps the remaining attributes in order. -/
def RemoveAttr (attrs : List Attr) (key : String) : List Attr :=
  match attrs with
  | [] => []
  | a :: rest => if a.key ≠ key then a :: RemoveAttr rest key else RemoveAttr rest key

/-- Policy together with the transformer chain (Policy.Transformers in
the Go source): each transformer receives the allowed element after
attribute filtering and returns the node to emit, or the deletion
signal (modelled by none, the Go nil). -/
structure PolicyT extends Policy where
  transformers : List (Node → Option Node)

/-- The transformer loop of the walk: apply each transformer in order
to the running node, stopping with the deletion signal as soon as one
returns it. -/
def runTransformers : List (Node → Option Node) → Node → Option Node
  | [], n => some n
  | t :: ts, n =>
    match t n with
    | none => none
    | some m => runTransformers ts m

mutual

/-- The full walk closure of SanitizeReader including the transformer
chain.  A transformer may return a node whose children are arbitrary,
so the recursion is not structural in the tree (and the Go code can
indeed recurse without bound on a transformer that grows the tree);
the fuel argument makes it total, returning none only when fuel runs
out, which never happens for fuel above the tree size when the chain
is empty (see walkF_bridge). -/
def walkF (pt : PolicyT) : Nat → Node → Nat → Option String
  | 0, _, _ => none
  | _ + 1, Node.text s, _ =>
    some (if pt.linkify then writeLinkedText s else escapeString s)
  | f + 1, Node.element name attrs cs, d =>
    let tag := asciiToLower name
    let tooDeep := decide (0 < pt.maxDepth) && decide (pt.maxDepth < d)
    if tagAllowedB tag pt.toPolicy && !tooDeep then
      match runTransformers pt.transformers
          (Node.element name (filterAttrs attrs tag pt.allowedAttributes (schemeSet pt.toPolicy)) cs) with
      | none => some ""
      | some n2 =>
        if isVoidElement tag then some ("<" ++ tag ++ attrsOut (attrsOf n2) ++ " />")
        else
          match walkListF pt f (childrenOf n2) (d + 1) with
          | none => none
          | some body => some ("<" ++ tag ++ attrsOut (attrsOf n2) ++ ">" ++ body ++ "</" ++ tag ++ ">")
    else if pt.stripDisallowed then some ""
    else
      match walkListF pt f cs (d + 1) with
      | none => none
      | some body =>
        some (escapeString (renderOpenTag name attrs) ++ body ++
          (if isVoidElement tag then "" else escapeString ("</" ++ tag ++ ">")))
  | f + 1, Node.document cs, d => walkListF pt f cs d
  | _ + 1, Node.comment _ _, _ => some ""
  | _ + 1, Node.doctype _ _, _ => some ""
  | f + 1, Node.other cs, d => walkListF pt f cs d

/-- The full walk applied to a run of siblings. -/
def walkListF (pt : PolicyT) : Nat → List Node → Nat → Option String
  | 0, _, _ => none
  | _ + 1, [], _ => some ""
  | f + 1, n :: ns, d =>
    match walkF pt f n d, walkListF pt f ns d with
    | some a, some b => some (a ++ b)
    | _, _ => none

end

mutual

/-- Canonical serialization of a node, matching exactly how the walk
serializes the nodes it emits: escaped text, lower-case-tag elements
with escaped double-quoted attributes, void elements self-closed with
a space.  Used to tie the output tree (outT) to the output string. -/
def renderC : Node → String
  | Node.text s => escapeString s
  | Node.element tag attrs cs =>
    if isVoidElement tag then "<" ++ tag ++ attrsOut attrs ++ " />"
    else "<" ++ tag ++ attrsOut attrs ++ ">" ++ renderCList cs ++ "</" ++ tag ++ ">"
  | Node.document cs => renderCList cs
  | Node.comment _ _ => ""
  | Node.doctype _ _ => ""
  | Node.other cs => renderCList cs

/-- renderC over a run of siblings. -/
def renderCList : List Node → String
  | [] => ""
  | n :: ns => renderC n ++ renderCList ns

end

mutual

/-- The tree the walk's output denotes, built compositionally from the
input tree: the nodes the walk emits live markup for become element
nodes with their filtered attributes, emitted literal segments become
text nodes, and dropped nodes vanish.  renderC of this tree is exactly
the walk's output (renderC_outT), so it is the canonical parse of the
output string. -/
def outT (p : Policy) : Node → Nat → List Node
  | Node.text s, _ => [Node.text s]
  | Node.element name attrs cs, d =>
    let tag := asciiToLower name
    let tooDeep := decide (0 < p.maxDepth) && decide (p.maxDepth < d)
    if tagAllowedB tag p && !tooDeep then
      let fa := filterAttrs attrs tag p.allowedAttributes (schemeSet p)
      if isVoidElement tag then [Node.element tag fa []]
      else [Node.element tag fa (outTList p cs (d + 1))]
    else if p.stripDisallowed then []
    else
      Node.text (renderOpenTag name attrs) :: (outTList p cs (d + 1) ++
        (if isVoidElement tag then [] else [Node.text ("</" ++ tag ++ ">")]))
  | Node.document cs, d => outTList p cs d
  | Node.comment _ _, _ => []
  | Node.doctype _ _, _ => []
  | Node.other cs, d => outTList p cs d

/-- outT over a run of siblings. -/
def outTList (p : Policy) : List Node → Nat → List Node
  | [], _ => []
  | n :: ns, d => outT p n d ++ outTList p ns d

end

mutual

/-- A node the walk maps to itself at depth d: a text node, or an
allowed element (lower-case tag in the tag set, within the depth
limit) whose attributes are a fixed point of the attribute filter and
whose children are clean one level deeper (empty for void tags).
Every node of the walk's output tree is clean (outT_clean), and the
walk re-serializes a clean node verbatim (walk_clean). -/
def Clean (p : Policy) : Node → Nat → Prop
  | Node.text _, _ => True
  | Node.element tag attrs cs, d =>
    tagAllowedB tag p = true ∧ asciiToLower tag = tag ∧
      (p.maxDepth = 0 ∨ d ≤ p.maxDepth) ∧
      filterAttrs attrs tag p.allowedAttributes (schemeSet p) = attrs ∧
      (if isVoidElement tag then cs = [] else CleanList p cs (d + 1))
  | Node.document _, _ => False
  | Node.comment _ _, _ => False
  | Node.doctype _ _, _ => False
  | Node.other _, _ => False

/-- Clean over a run of siblings. -/
def CleanList (p : Policy) : List Node → Nat → Prop
  | [], _ => True
  | n :: ns, d => Clean p n d ∧ CleanList p ns d

end

mutual

/-- The data of every text node in a subtree, in document order; the
text content of the subtree is their concatenation.  Comment and
doctype data is not text content. -/
def textsOf : Node → List String
  | Node.text s => [s]
  | Node.element _ _ cs => textsOfList cs
  | Node.document cs => textsOfList cs
  | Node.comment _ _ => []
  | Node.doctype _ _ => []
  | Node.other cs => textsOfList cs

/-- textsOf over a run of siblings. -/
def textsOfList : List Node → List String
  | [] => []
  | n :: ns => textsOf n ++ textsOfList ns

end

mutual

/-- The parser-tree invariants the claims lean on: void elements have
no children (a void tag cannot contain content) and comment and
doctype nodes are leaves.  Every tree golang.org/x/net/html produces
satisfies this. -/
def wfNode : Node → Prop
  | Node.text _ => True
  | Node.element name _ cs => (isVoidElement (asciiToLower name) = true → cs = []) ∧ wfList cs
  | Node.document cs => wfList cs
  | Node.comment _ cs => cs = []
  | Node.doctype _ cs => cs = []
  | Node.other cs => wfList cs

/-- wfNode over a run of siblings. -/
def wfList : List Node → Prop
  | [] => True
  | n :: ns => wfNode n ∧ wfList ns

end

mutual

/-- Every href/src/action attribute carried by an element node of a
tree — the attributes that function (are live) when the tree is
serialized.  Text nodes carry none, whatever markup their data spells. -/
def liveURLAttrs : Node → List Attr
  | Node.element _ attrs cs => attrs.filter (fun a => urlAttrKey a.key) ++ liveURLAttrsList cs
  | Node.document cs => liveURLAttrsList cs
  | Node.other cs => liveURLAttrsList cs
  | Node.text _ => []
  | Node.comment _ _ => []
  | Node.doctype _ _ => []

/-- liveURLAttrs over a run of siblings. -/
def liveURLAttrsList : List Node → List Attr
  | [] => []
  | n :: ns => liveURLAttrs n ++ liveURLAttrsList ns

end

/-- t occurs contiguously inside s. -/
def isInfixStr (t s : String) : Prop :=
  t.data <:+: s.data

/-! ### Helper lemmas -/

theorem charToLower_idem (c : Char) : Char.toLower (Char.toLower c) = Char.toLower c := by
  simp only [Char.toLower]
  split
  · next h =>
    have hv : (Char.ofNat (c.toNat + 32)).toNat = c.toNat + 32 := by
      have hv2 : (c.toNat + 32).isValidChar := Or.inl (by omega)
      rw [Char.ofNat, dif_pos hv2]
      simp [Char.ofNatAux, Char.toNat, UInt32.toNat, BitVec.toNat_ofNat]
    rw [if_neg]
    omega
  · rfl

theorem asciiToLower_idem (s : String) : asciiToLower (asciiToLower s) = asciiToLower s := by
  show String.mk ((s.data.map Char.toLower).map Char.toLower) = String.mk (s.data.map Char.toLower)
  rw [List.map_map]
  congr 1
  exact List.map_congr_left (fun c _ => charToLower_idem c)

theorem tooDeep_false {p : Policy} {d : Nat} (hd : p.maxDepth = 0 ∨ d ≤ p.maxDepth) :
    (decide (0 < p.maxDepth) && decide (p.maxDepth < d)) = false := by
  rcases hd with h | h
  · simp [h]
  · simp
    omega

theorem walk_text (p : Policy) (s : String) (d : Nat) :
    walk p (Node.text s) d = if p.linkify then writeLinkedText s else escapeString s := rfl

theorem walk_element_allowed {p : Policy} {name : String} {attrs : List Attr}
    {cs : List Node} {d : Nat}
    (ht : tagAllowedB (asciiToLower name) p = true)
    (hd : p.maxDepth = 0 ∨ d ≤ p.maxDepth) :
    walk p (Node.element name attrs cs) d =
      (if isVoidElement (asciiToLower name) then
        "<" ++ asciiToLower name ++
          attrsOut (filterAttrs attrs (asciiToLower name) p.allowedAttributes (schemeSet p)) ++ " />"
      else
        "<" ++ asciiToLower name ++
          attrsOut (filterAttrs attrs (asciiToLower name) p.allowedAttributes (schemeSet p)) ++ ">" ++
          walkList p cs (d + 1) ++ "</" ++ asciiToLower name ++ ">") := by
  simp only [walk, tooDeep_false hd, ht, Bool.not_false, Bool.and_true, if_true]

theorem walk_element_disallowed {p : Policy} {name : String} {attrs : List Attr}
    {cs : List Node} {d : Nat}
    (h : (tagAllowedB (asciiToLower name) p &&
      !(decide (0 < p.maxDepth) && decide (p.maxDepth < d))) = false) :
    walk p (Node.element name attrs cs) d =
      (if p.stripDisallowed then ""
       else
        escapeString (renderOpenTag name attrs) ++ walkList p cs (d + 1) ++
          (if isVoidElement (asciiToLower name) then ""
           else escapeString ("</" ++ asciiToLower name ++ ">"))) := by
  simp only [walk, h, Bool.false_eq_true, if_false]

theorem mem_filterAttrs {a : Attr} {attrs : List Attr} {tag : String}
    {al : List (String × List String)} {S : List String}
    (h : a ∈ filterAttrs attrs tag al S) :
    a ∈ attrs ∧ attrAllowed a.key tag al = true ∧
      (urlAttrKey a.key = true → schemeAllowed a.val S = true) := by
  induction attrs with
  | nil => simp [filterAttrs] at h
  | cons b rest ih =>
    rw [filterAttrs] at h
    by_cases hc : (attrAllowed b.key tag al && (!urlAttrKey b.key || schemeAllowed b.val S)) = true
    · rw [if_pos hc] at h
      rcases List.mem_cons.mp h with h1 | h1
      · subst h1
        simp only [Bool.and_eq_true, Bool.or_eq_true] at hc
        rcases hc with ⟨h2, h3⟩
        refine ⟨List.mem_cons_self _ _, h2, fun hk => ?_⟩
        rcases h3 with h4 | h4
        · rw [hk] at h4; simp at h4
        · exact h4
      · rcases ih h1 with ⟨m, rest'⟩
        exact ⟨List.mem_cons_of_mem _ m, rest'⟩
    · rw [if_neg hc] at h
      rcases ih h with ⟨m, rest'⟩
      exact ⟨List.mem_cons_of_mem _ m, rest'⟩

theorem filterAttrs_idem (attrs : List Attr) (tag : String)
    (al : List (String × List String)) (S : List String) :
    filterAttrs (filterAttrs attrs tag al S) tag al S = filterAttrs attrs tag al S := by
  induction attrs with
  | nil => rfl
  | cons b rest ih =>
    rw [filterAttrs]
    by_cases hc : (attrAllowed b.key tag al && (!urlAttrKey b.key || schemeAllowed b.val S)) = true
    · rw [if_pos hc, filterAttrs, if_pos hc, ih]
    · rw [if_neg hc, ih]

theorem isInfixStr_self (t : String) : isInfixStr t t :=
  ⟨[], [], by simp⟩

theorem isInfixStr_append_left {t s : String} (u : String) (h : isInfixStr t s) :
    isInfixStr t (u ++ s) := by
  obtain ⟨a, b, hab⟩ := h
  exact ⟨u.data ++ a, b, by rw [String.data_append]; rw [← hab]; simp⟩

theorem isInfixStr_append_right {t s : String} (u : String) (h : isInfixStr t s) :
    isInfixStr t (s ++ u) := by
  obtain ⟨a, b, hab⟩ := h
  exact ⟨a, b ++ u.data, by rw [String.data_append]; rw [← hab]; simp⟩

theorem renderCList_append (xs ys : List Node) :
    renderCList (xs ++ ys) = renderCList xs ++ renderCList ys := by
  induction xs with
  | nil => simp [renderCList]
  | cons n ns ih =>
    simp only [List.cons_append, renderCList, List.append_eq, ih, String.append_assoc]

mutual

theorem textsOf_occurs (p : Policy) (hs : p.stripDisallowed = false) (n : Node) :
    ∀ (d : Nat), wfNode n → ∀ s ∈ textsOf n, isInfixStr (walk p (Node.text s) 0) (walk p n d) := by
  cases n with
  | text t =>
    intro d _ s hmem
    rw [show textsOf (Node.text t) = [t] from rfl, List.mem_singleton] at hmem
    subst hmem
    exact isInfixStr_self _
  | element name attrs cs =>
    intro d hwf s hmem
    rw [show textsOf (Node.element name attrs cs) = textsOfList cs from rfl] at hmem
    have hwf' : (isVoidElement (asciiToLower name) = true → cs = []) ∧ wfList cs := hwf
    have hrec := textsOfList_occurs p hs cs (d + 1) hwf'.2 s hmem
    by_cases hA : (tagAllowedB (asciiToLower name) p &&
        !(decide (0 < p.maxDepth) && decide (p.maxDepth < d))) = true
    · rcases Bool.and_eq_true_iff.mp hA with ⟨ht, htd⟩
      have hd : p.maxDepth = 0 ∨ d ≤ p.maxDepth := by
        by_contra hcon
        push_neg at hcon
        have : (decide (0 < p.maxDepth) && decide (p.maxDepth < d)) = true := by
          simp
          omega
        rw [this] at htd
        simp at htd
      rw [walk_element_allowed ht hd]
      by_cases hv : isVoidElement (asciiToLower name) = true
      · rw [hwf'.1 hv] at hmem
        simp [textsOfList] at hmem
      · rw [if_neg hv]
        exact isInfixStr_append_right _ (isInfixStr_append_right _
          (isInfixStr_append_right _ (isInfixStr_append_left _ hrec)))
    · rw [walk_element_disallowed ((Bool.not_eq_true _) ▸ hA), hs]
      rw [if_neg (by simp)]
      exact isInfixStr_append_right _ (isInfixStr_append_left _ hrec)
  | document cs =>
    intro d hwf s hmem
    exact textsOfList_occurs p hs cs d hwf s hmem
  | comment t cs =>
    intro d _ s hmem
    simp [textsOf] at hmem
  | doctype t cs =>
    intro d _ s hmem
    simp [textsOf] at hmem
  | other cs =>
    intro d hwf s hmem
    exact textsOfList_occurs p hs cs d hwf s hmem

theorem textsOfList_occurs (p : Policy) (hs : p.stripDisallowed = false) (ns : List Node) :
    ∀ (d : Nat), wfList ns → ∀ s ∈ textsOfList ns,
      isInfixStr (walk p (Node.text s) 0) (walkList p ns d) := by
  cases ns with
  | nil =>
    intro d _ s hmem
    simp [textsOfList] at hmem
  | cons n ns =>
    intro d hwf s hmem
    have hwf' : wfNode n ∧ wfList ns := hwf
    rw [show textsOfList (n :: ns) = textsOf n ++ textsOfList ns from rfl,
      List.mem_append] at hmem
    rw [show walkList p (n :: ns) d = walk p n d ++ walkList p ns d from rfl]
    rcases hmem with h | h
    · exact isInfixStr_append_right _ (textsOf_occurs p hs n d hwf'.1 s h)
    · exact isInfixStr_append_left _ (textsOfList_occurs p hs ns d hwf'.2 s h)

end

theorem CleanList_append {p : Policy} {xs ys : List Node} {d : Nat}
    (hx : CleanList p xs d) (hy : CleanList p ys d) : CleanList p (xs ++ ys) d := by
  induction xs with
  | nil => simpa using hy
  | cons n ns ih =>
    have h : Clean p n d ∧ CleanList p ns d := hx
    exact ⟨h.1, ih h.2⟩

mutual

theorem Clean_mono (p : Policy) (n : Node) :
    ∀ {d' d : Nat}, d' ≤ d → Clean p n d → Clean p n d' := by
  cases n with
  | text s => intro d' d _ _; trivial
  | element tag attrs cs =>
    intro d' d hle h
    obtain ⟨ht, hlow, hd, hfa, hch⟩ := h
    refine ⟨ht, hlow, ?_, hfa, ?_⟩
    · rcases hd with h0 | h0
      · exact Or.inl h0
      · exact Or.inr (le_trans hle h0)
    · by_cases hv : isVoidElement tag = true
      · rw [if_pos hv] at hch ⊢
        exact hch
      · rw [if_neg hv] at hch ⊢
        exact CleanList_mono p cs (Nat.add_le_add_right hle 1) hch
  | document cs => intro _ _ _ h; exact absurd h not_false
  | comment s cs => intro _ _ _ h; exact absurd h not_false
  | doctype s cs => intro _ _ _ h; exact absurd h not_false
  | other cs => intro _ _ _ h; exact absurd h not_false

theorem CleanList_mono (p : Policy) (ns : List Node) :
    ∀ {d' d : Nat}, d' ≤ d → CleanList p ns d → CleanList p ns d' := by
  cases ns with
  | nil => intro _ _ _ _; trivial
  | cons n ns =>
    intro d' d hle h
    have h' : Clean p n d ∧ CleanList p ns d := h
    exact ⟨Clean_mono p n hle h'.1, CleanList_mono p ns hle h'.2⟩

end

mutual

theorem outT_clean (p : Policy) (n : Node) :
    ∀ (d : Nat), CleanList p (outT p n d) d := by
  cases n with
  | text s => intro d; exact ⟨trivial, trivial⟩
  | element name attrs cs =>
    intro d
    rw [outT]
    by_cases hA : (tagAllowedB (asciiToLower name) p &&
        !(decide (0 < p.maxDepth) && decide (p.maxDepth < d))) = true
    · rw [if_pos hA]
      rcases Bool.and_eq_true_iff.mp hA with ⟨ht, htd⟩
      have hd : p.maxDepth = 0 ∨ d ≤ p.maxDepth := by
        by_contra hcon
        push_neg at hcon
        have hdec : (decide (0 < p.maxDepth) && decide (p.maxDepth < d)) = true := by
          simp
          omega
        rw [hdec] at htd
        simp at htd
      by_cases hv : isVoidElement (asciiToLower name) = true
      · rw [if_pos hv]
        refine ⟨⟨ht, asciiToLower_idem name, hd, filterAttrs_idem _ _ _ _, ?_⟩, trivial⟩
        rw [if_pos hv]
      · rw [if_neg hv]
        refine ⟨⟨ht, asciiToLower_idem name, hd, filterAttrs_idem _ _ _ _, ?_⟩, trivial⟩
        rw [if_neg hv]
        exact outTList_clean p cs (d + 1)
    · rw [if_neg hA]
      by_cases hstrip : p.stripDisallowed = true
      · rw [if_pos hstrip]; trivial
      · rw [if_neg hstrip]
        refine ⟨trivial, ?_⟩
        refine CleanList_append (CleanList_mono p _ (Nat.le_succ d) (outTList_clean p cs (d + 1))) ?_
        by_cases hv : isVoidElement (asciiToLower name) = true
        · rw [if_pos hv]; trivial
        · rw [if_neg hv]; exact ⟨trivial, trivial⟩
  | document cs => intro d; exact outTList_clean p cs d
  | comment s cs => intro d; trivial
  | doctype s cs => intro d; trivial
  | other cs => intro d; exact outTList_clean p cs d

theorem outTList_clean (p : Policy) (ns : List Node) :
    ∀ (d : Nat), CleanList p (outTList p ns d) d := by
  cases ns with
  | nil => intro d; trivial
  | cons n ns =>
    intro d
    exact CleanList_append (outT_clean p n d) (outTList_clean p ns d)

end

mutual

theorem renderC_outT (p : Policy) (hl : p.linkify = false) (n : Node) :
    ∀ (d : Nat), renderCList (outT p n d) = walk p n d := by
  cases n with
  | text s =>
    intro d
    simp [outT, renderCList, renderC, walk, hl]
  | element name attrs cs =>
    intro d
    rw [outT]
    by_cases hA : (tagAllowedB (asciiToLower name) p &&
        !(decide (0 < p.maxDepth) && decide (p.maxDepth < d))) = true
    · rcases Bool.and_eq_true_iff.mp hA with ⟨ht, htd⟩
      have hd : p.maxDepth = 0 ∨ d ≤ p.maxDepth := by
        by_contra hcon
        push_neg at hcon
        have hdec : (decide (0 < p.maxDepth) && decide (p.maxDepth < d)) = true := by
          simp
          omega
        rw [hdec] at htd
        simp at htd
      rw [if_pos hA, walk_element_allowed ht hd]
      by_cases hv : isVoidElement (asciiToLower name) = true
      · rw [if_pos hv, if_pos hv]
        simp [renderCList, renderC, hv]
      · rw [if_neg hv, if_neg hv]
        simp [renderCList, renderC, hv, renderC_outTList p hl cs (d + 1)]
    · rw [if_neg hA, walk_element_disallowed ((Bool.not_eq_true _) ▸ hA)]
      by_cases hstrip : p.stripDisallowed = true
      · rw [if_pos hstrip, if_pos hstrip]
        rfl
      · rw [if_neg hstrip, if_neg hstrip]
        rw [show ∀ x xs, renderCList (Node.text x :: xs) = escapeString x ++ renderCList xs
          from fun x xs => rfl]
        rw [renderCList_append, renderC_outTList p hl cs (d + 1)]
        by_cases hv : isVoidElement (asciiToLower name) = true
        · rw [if_pos hv, if_pos hv]
          simp [renderCList, String.append_assoc]
        · rw [if_neg hv, if_neg hv]
          simp [renderCList, renderC, String.append_assoc]
  | document cs => intro d; exact renderC_outTList p hl cs d
  | comment s cs => intro d; rfl
  | doctype s cs => intro d; rfl
  | other cs => intro d; exact renderC_outTList p hl cs d

theorem renderC_outTList (p : Policy) (hl : p.linkify = false) (ns : List Node) :
    ∀ (d : Nat), renderCList (outTList p ns d) = walkList p ns d := by
  cases ns with
  | nil => intro d; rfl
  | cons n ns =>
    intro d
    rw [show outTList p (n :: ns) d = outT p n d ++ outTList p ns d from rfl,
      renderCList_append, renderC_outT p hl n d, renderC_outTList p hl ns d]
    rfl

end

mutual

theorem walk_clean (p : Policy) (hl : p.linkify = false) (n : Node) :
    ∀ (d : Nat), Clean p n d → walk p n d = renderC n := by
  cases n with
  | text s => intro d _; simp [walk, renderC, hl]
  | element tag attrs cs =>
    intro d h
    obtain ⟨ht, hlow, hd, hfa, hch⟩ := h
    have ht' : tagAllowedB (asciiToLower tag) p = true := by rw [hlow]; exact ht
    rw [walk_element_allowed ht' hd, hlow, hfa]
    by_cases hv : isVoidElement tag = true
    · rw [if_pos hv]
      rw [show renderC (Node.element tag attrs cs) =
        (if isVoidElement tag then "<" ++ tag ++ attrsOut attrs ++ " />"
         else "<" ++ tag ++ attrsOut attrs ++ ">" ++ renderCList cs ++ "</" ++ tag ++ ">") from rfl]
      rw [if_pos hv]
    · rw [if_neg hv] at hch ⊢
      rw [show renderC (Node.element tag attrs cs) =
        (if isVoidElement tag then "<" ++ tag ++ attrsOut attrs ++ " />"
         else "<" ++ tag ++ attrsOut attrs ++ ">" ++ renderCList cs ++ "</" ++ tag ++ ">") from rfl]
      rw [if_neg hv, walkList_clean p hl cs (d + 1) hch]
  | document cs => intro d h; exact absurd h not_false
  | comment s cs => intro d h; exact absurd h not_false
  | doctype s cs => intro d h; exact absurd h not_false
  | other cs => intro d h; exact absurd h not_false

theorem walkList_clean (p : Policy) (hl : p.linkify = false) (ns : List Node) :
    ∀ (d : Nat), CleanList p ns d → walkList p ns d = renderCList ns := by
  cases ns with
  | nil => intro d _; rfl
  | cons n ns =>
    intro d h
    have h' : Clean p n d ∧ CleanList p ns d := h
    rw [show walkList p (n :: ns) d = walk p n d ++ walkList p ns d from rfl,
      walk_clean p hl n d h'.1, walkList_clean p hl ns d h'.2]
    rfl

end

/-- Re-sanitizing the canonical output tree reproduces the output, for
policies without linkification (and, per the Policy type, without
transformers). -/
theorem walkList_outTList (p : Policy) (hl : p.linkify = false) (ns : List Node) (d : Nat) :
    walkList p (outTList p ns d) d = walkList p ns d := by
  rw [walkList_clean p hl _ d (outTList_clean p ns d), renderC_outTList p hl ns d]

theorem schemeAllowed_spec {v : String} {S : List String} (h : schemeAllowed v S = true) :
    ∃ sch, parseURLScheme (normalizeURL v) = some sch ∧
      (sch = "" ∨ S.contains (asciiToLower sch) = true) := by
  unfold schemeAllowed at h
  cases hp : parseURLScheme (normalizeURL v) with
  | none => rw [hp] at h; simp at h
  | some sch =>
    rw [hp] at h
    by_cases he : sch = ""
    · exact ⟨sch, rfl, Or.inl he⟩
    · have h' : (if sch = "" then true else S.contains (asciiToLower sch)) = true := h
      rw [if_neg he] at h'
      exact ⟨sch, rfl, Or.inr h'⟩

theorem schemeAllowed_relative {v : String} (S : List String)
    (h : parseURLScheme (normalizeURL v) = some "") : schemeAllowed v S = true := by
  unfold schemeAllowed
  rw [h]
  rfl

theorem liveURLAttrsList_append (xs ys : List Node) :
    liveURLAttrsList (xs ++ ys) = liveURLAttrsList xs ++ liveURLAttrsList ys := by
  induction xs with
  | nil => simp [liveURLAttrsList]
  | cons n ns ih =>
    simp only [List.cons_append, liveURLAttrsList, List.append_eq, ih, List.append_assoc]

mutual

theorem outT_schemes (p : Policy) (n : Node) :
    ∀ (d : Nat) (a : Attr), a ∈ liveURLAttrsList (outT p n d) →
      schemeAllowed a.val (schemeSet p) = true := by
  cases n with
  | text s =>
    intro d a ha
    simp [outT, liveURLAttrsList, liveURLAttrs] at ha
  | element name attrs cs =>
    intro d a ha
    rw [outT] at ha
    by_cases hA : (tagAllowedB (asciiToLower name) p &&
        !(decide (0 < p.maxDepth) && decide (p.maxDepth < d))) = true
    · rw [if_pos hA] at ha
      by_cases hv : isVoidElement (asciiToLower name) = true
      · rw [if_pos hv] at ha
        rw [show ∀ x y z, liveURLAttrsList [Node.element x y z] =
            (y.filter (fun b => urlAttrKey b.key) ++ liveURLAttrsList z) ++ []
          from fun x y z => rfl] at ha
        rw [show liveURLAttrsList ([] : List Node) = [] from rfl] at ha
        simp only [List.append_nil] at ha
        have := List.mem_filter.mp ha
        exact (mem_filterAttrs this.1).2.2 this.2
      · rw [if_neg hv] at ha
        rw [show ∀ x y z, liveURLAttrsList [Node.element x y z] =
            (y.filter (fun b => urlAttrKey b.key) ++ liveURLAttrsList z) ++ []
          from fun x y z => rfl] at ha
        simp only [List.append_nil] at ha
        rcases List.mem_append.mp ha with hm | hm
        · have := List.mem_filter.mp hm
          exact (mem_filterAttrs this.1).2.2 this.2
        · exact outTList_schemes p cs (d + 1) a hm
    · rw [if_neg hA] at ha
      by_cases hstrip : p.stripDisallowed = true
      · rw [if_pos hstrip] at ha
        simp [liveURLAttrsList] at ha
      · rw [if_neg hstrip] at ha
        rw [show ∀ x xs, liveURLAttrsList (Node.text x :: xs) = liveURLAttrsList xs
          from fun x xs => rfl, liveURLAttrsList_append] at ha
        rcases List.mem_append.mp ha with hm | hm
        · exact outTList_schemes p cs (d + 1) a hm
        · by_cases hv : isVoidElement (asciiToLower name) = true
          · rw [if_pos hv] at hm
            simp [liveURLAttrsList] at hm
          · rw [if_neg hv] at hm
            simp [liveURLAttrsList, liveURLAttrs] at hm
  | document cs => intro d a ha; exact outTList_schemes p cs d a ha
  | comment s cs => intro d a ha; simp [outT, liveURLAttrsList] at ha
  | doctype s cs => intro d a ha; simp [outT, liveURLAttrsList] at ha
  | other cs => intro d a ha; exact outTList_schemes p cs d a ha

theorem outTList_schemes (p : Policy) (ns : List Node) :
    ∀ (d : Nat) (a : Attr), a ∈ liveURLAttrsList (outTList p ns d) →
      schemeAllowed a.val (schemeSet p) = true := by
  cases ns with
  | nil => intro d a ha; simp [outTList, liveURLAttrsList] at ha
  | cons n ns =>
    intro d a ha
    rw [show outTList p (n :: ns) d = outT p n d ++ outTList p ns d from rfl,
      liveURLAttrsList_append] at ha
    rcases List.mem_append.mp ha with hm | hm
    · exact outT_schemes p n d a hm
    · exact outTList_schemes p ns d a hm

end

theorem runTransformers_append (ts1 ts2 : List (Node → Option Node)) (n : Node) :
    runTransformers (ts1 ++ ts2) n = (runTransformers ts1 n).bind (runTransformers ts2) := by
  induction ts1 generalizing n with
  | nil => rfl
  | cons t ts ih =>
    simp only [List.cons_append, runTransformers]
    cases t n with
    | none => rfl
    | some m => exact ih m

theorem runTransformers_veto {ts1 ts2 : List (Node → Option Node)}
    {t : Node → Option Node} {n m : Node}
    (h1 : runTransformers ts1 n = some m) (h2 : t m = none) :
    runTransformers (ts1 ++ t :: ts2) n = none := by
  rw [runTransformers_append, h1]
  show runTransformers (t :: ts2) m = none
  rw [runTransformers]
  rw [h2]

/-- With an empty transformer chain, the full fueled walk computes the
transformer-free walk whenever the fuel exceeds the tree size: walk is
the engine's behaviour for every policy without transformers. -/
theorem walkF_walk (pt : PolicyT) (ht : pt.transformers = []) :
    ∀ (f : Nat),
      (∀ (n : Node) (d : Nat), sizeOf n < f → walkF pt f n d = some (walk pt.toPolicy n d)) ∧
      (∀ (ns : List Node) (d : Nat), sizeOf ns < f →
        walkListF pt f ns d = some (walkList pt.toPolicy ns d)) := by
  intro f
  induction f with
  | zero =>
    constructor
    · intro n d hn
      exact absurd hn (Nat.not_lt_zero _)
    · intro ns d hns
      exact absurd hns (Nat.not_lt_zero _)
  | succ f ih =>
    constructor
    · intro n d hn
      cases n with
      | text s => rfl
      | element name attrs cs =>
        have hcs : sizeOf cs < f := by
          simp only [Node.element.sizeOf_spec] at hn
          have h1 : 0 < sizeOf name := by
            cases name
            simp
          omega
        simp only [walkF, walk, ht, runTransformers, childrenOf, attrsOf,
          (ih.2) cs (d + 1) hcs]
        split
        · split
          · rfl
          · rfl
        · split
          · rfl
          · rfl
      | document cs =>
        have hcs : sizeOf cs < f := by
          simp only [Node.document.sizeOf_spec] at hn
          omega
        simp only [walkF, walk]
        exact (ih.2) cs d hcs
      | comment s cs => rfl
      | doctype s cs => rfl
      | other cs =>
        have hcs : sizeOf cs < f := by
          simp only [Node.other.sizeOf_spec] at hn
          omega
        simp only [walkF, walk]
        exact (ih.2) cs d hcs
    · intro ns d hns
      cases ns with
      | nil => rfl
      | cons n rest =>
        have h1 : sizeOf n < f := by
          simp only [List.cons.sizeOf_spec] at hns
          omega
        have h2 : sizeOf rest < f := by
          simp only [List.cons.sizeOf_spec] at hns
          omega
        simp only [walkListF, walkList, (ih.1) n d h1, (ih.2) rest d h2]

theorem GetAttr_SetAttr (attrs : List Attr) (k v : String) :
    GetAttr (SetAttr attrs k v) k = v := by
  induction attrs with
  | nil => simp [SetAttr, GetAttr]
  | cons a rest ih =>
    by_cases h : a.key = k
    · simp [SetAttr, h, GetAttr]
    · simp [SetAttr, h, GetAttr, ih]

theorem SetAttr_keys (attrs : List Attr) (k v : String) :
    (SetAttr attrs k v).map Attr.key =
      (if k ∈ attrs.map Attr.key then attrs.map Attr.key else attrs.map Attr.key ++ [k]) := by
  induction attrs with
  | nil => simp [SetAttr]
  | cons a rest ih =>
    by_cases h : a.key = k
    · simp [SetAttr, h, List.mem_cons]
    · have hne : ¬k = a.key := fun hk => h hk.symm
      by_cases hm : k ∈ rest.map Attr.key
      · simp [SetAttr, h, ih, hm, List.mem_cons, hne]
      · simp [SetAttr, h, ih, hm, List.mem_cons, hne]

theorem GetAttr_RemoveAttr (attrs : List Attr) (k : String) :
    GetAttr (RemoveAttr attrs k) k = "" := by
  induction attrs with
  | nil => rfl
  | cons a rest ih =>
    by_cases h : a.key = k
    · simp [RemoveAttr, h, ih]
    · simp [RemoveAttr, h, GetAttr, ih]

theorem RemoveAttr_sublist (attrs : List Attr) (k : String) :
    (RemoveAttr attrs k).Sublist attrs := by
  induction attrs with
  | nil => exact List.Sublist.refl _
  | cons a rest ih =>
    by_cases h : a.key = k
    · rw [RemoveAttr, if_neg (by simpa using h)]
      exact List.Sublist.cons a ih
    · rw [RemoveAttr, if_pos (by simpa using h)]
      exact List.Sublist.cons₂ a ih

theorem GetAttr_absent (attrs : List Attr) (k : String) (h : ∀ a ∈ attrs, a.key ≠ k) :
    GetAttr attrs k = "" := by
  induction attrs with
  | nil => rfl
  | cons a rest ih =>
    rw [GetAttr, if_neg (h a (List.mem_cons_self a rest))]
    exact ih (fun b hb => h b (List.mem_cons_of_mem a hb))

/-! ### Claims -/

/-- C5: the spec scenario requires sanitize("<b>Hello</b> <script>alert('xss')</script>",
defaultPolicy()) = "<b>Hello</b> " with the script element and its
contents fully removed.  The code disagrees: DefaultPolicy sets
StripDisallowed to false, so the walk's escape branch keeps the script
element's body as escaped text.  Evaluating the engine on the parsed
input (the parser wraps fragments in html/head/body, and script
content is a single text node) yields the escaped form, which differs
from the claimed output.  The repository's own test
TestSanitize_ScriptStripped (no "script" substring in output) and
ExampleSanitize (expected output "<b>Hello</b>") both demand the
claimed behaviour, so the claim captures the intent and the code is at
fault. -/
theorem C5_script_scenario :
    SanitizeDoc DefaultPolicy
      (Node.document [Node.element "html" []
        [Node.element "head" [] [],
         Node.element "body" []
           [Node.element "b" [] [Node.text "Hello"], Node.text " ",
            Node.element "script" [] [Node.text "alert('xss')"]]]]) =
      "<b>Hello</b> &lt;script&gt;alert(&#39;xss&#39;)&lt;/script&gt;" ∧
    ("<b>Hello</b> &lt;script&gt;alert(&#39;xss&#39;)&lt;/script&gt;" : String) ≠
      "<b>Hello</b> " := by
  constructor
  · decide
  · decide

/-- C9: the walk emits nothing for comment and doctype nodes and never
recurses into their children, in every policy configuration and at
every depth: nothing from such a node's subtree can reach the output. -/
theorem C9_comment_doctype_dropped (p : Policy) (d : Nat) (s : String) (cs : List Node) :
    walk p (Node.comment s cs) d = "" ∧ walk p (Node.doctype s cs) d = "" :=
  ⟨rfl, rfl⟩

/-- C10: the attribute helpers behave as claimed: SetAttr followed by
GetAttr returns the new value; SetAttr updates an existing key in
place (the key sequence is unchanged when the key is present, and
gains exactly one entry at the end otherwise, so no duplicate is
added); GetAttr after RemoveAttr returns the empty string; RemoveAttr
keeps the remaining attributes in their relative order (its result is
a sublist of the original list); and GetAttr of an absent key returns
the empty string. -/
theorem C10_attr_helpers (attrs : List Attr) (k v : String) :
    GetAttr (SetAttr attrs k v) k = v ∧
    (SetAttr attrs k v).map Attr.key =
      (if k ∈ attrs.map Attr.key then attrs.map Attr.key else attrs.map Attr.key ++ [k]) ∧
    GetAttr (RemoveAttr attrs k) k = "" ∧
    (RemoveAttr attrs k).Sublist attrs ∧
    ((∀ a ∈ attrs, a.key ≠ k) → GetAttr attrs k = "") :=
  ⟨GetAttr_SetAttr attrs k v, SetAttr_keys attrs k v, GetAttr_RemoveAttr attrs k,
    RemoveAttr_sublist attrs k, GetAttr_absent attrs k⟩

theorem C10_attr_helpers_witness :
    GetAttr (SetAttr [Attr.mk "href" "u", Attr.mk "x" "1"] "href" "v") "href" = "v" ∧
    GetAttr [Attr.mk "x" "1"] "href" = "" :=
  ⟨(C10_attr_helpers [Attr.mk "href" "u", Attr.mk "x" "1"] "href" "v").1,
    (C10_attr_helpers [Attr.mk "x" "1"] "href" "v").2.2.2.2 (by decide)⟩

/-- C7 counterexample: the claim says an empty policy value behaves
like the permissive preset, but only a nil policy reference is
replaced (the Go code checks p == nil).  An empty (zero-valued) Policy
allows no tags, so it escapes a b element that DefaultPolicy keeps:
the two outputs differ on the same document. -/
theorem C7_empty_policy_cex :
    SanitizeDocOpt (some ⟨[], [], [], false, false, 0⟩)
      (Node.document [Node.element "html" [] [Node.element "head" [] [],
        Node.element "body" [] [Node.element "b" [] [Node.text "x"]]]]) =
      "&lt;b&gt;x&lt;/b&gt;" ∧
    SanitizeDocOpt none
      (Node.document [Node.element "html" [] [Node.element "head" [] [],
        Node.element "body" [] [Node.element "b" [] [Node.text "x"]]]]) =
      "<b>x</b>" ∧
    ("&lt;b&gt;x&lt;/b&gt;" : String) ≠ "<b>x</b>" := by
  refine ⟨by decide, by decide, by decide⟩

/-- C7 amended: a nil (missing) policy reference is replaced by the
permissive preset, and this is not an error; a supplied policy value —
including the empty one — is used exactly as given. -/
theorem C7_nil_policy_default (doc : Node) (p : Policy) :
    SanitizeDocOpt none doc = SanitizeDoc DefaultPolicy doc ∧
    SanitizeDocOpt (some p) doc = SanitizeDoc p doc :=
  ⟨rfl, rfl⟩

/-- C8 counterexample: stripTags is not idempotent at the string
level.  On the parse of "&lt;b&gt;hi&lt;/b&gt;" (a single text node,
shown below inside the parser's html/head/body wrapper) stripTags
returns "<b>hi</b>" — extracted text is not re-escaped.  Re-running
stripTags parses that output as markup: its parse is the second
document below (the canonical render of that b element is exactly the
first output, per the middle conjunct), and stripTags of it returns
"hi", not "<b>hi</b>". -/
theorem C8_stripTags_cex :
    StripTags (Node.document [Node.element "html" [] [Node.element "head" [] [],
      Node.element "body" [] [Node.text "<b>hi</b>"]]]) = "<b>hi</b>" ∧
    renderCList [Node.element "b" [] [Node.text "hi"]] = "<b>hi</b>" ∧
    StripTags (Node.document [Node.element "html" [] [Node.element "head" [] [],
      Node.element "body" [] [Node.element "b" [] [Node.text "hi"]]]]) = "hi" ∧
    ("hi" : String) ≠ "<b>hi</b>" := by
  refine ⟨by decide, by decide, by decide, by decide⟩

/-- C8 amended: stripTags is a single-shot extraction; it is
idempotent exactly when its output re-parses as plain text (which
fails when the extracted text itself contains markup, since the output
is not re-escaped): re-running it on a document whose body holds the
previous output as one text node returns the output unchanged. -/
theorem C8_stripTags_text_fixed (doc : Node) :
    StripTags (Node.document [Node.element "html" [] [Node.element "head" [] [],
      Node.element "body" [] [Node.text (StripTags doc)]]]) = StripTags doc := by
  rw [StripTags]
  rw [show findBody (Node.document [Node.element "html" [] [Node.element "head" [] [],
    Node.element "body" [] [Node.text (StripTags doc)]]]) =
      some (Node.element "body" [] [Node.text (StripTags doc)]) from by
    simp [findBody, findBodyList]]
  show textContent (Node.element "body" [] [Node.text (StripTags doc)]) = StripTags doc
  rw [show ∀ s, textContent (Node.element "body" [] [Node.text s]) = s ++ "" from
    fun s => rfl]
  rw [String.append_empty]

/-- C2: strip versus escape for a disallowed element (tag outside the
allowed set).  With stripDisallowed true the walk emits nothing for
the element, so the text of its entire subtree is absent from the
element's contribution to the output.  With stripDisallowed false the
walk emits exactly the escaped open tag, the normally-walked children,
and (for non-void tags) the escaped close tag; and — under the parser
invariants wfNode (void elements and comments are childless) — every
descendant text node's rendered text occurs contiguously in the
element's output. -/
theorem C2_strip_vs_escape (p : Policy) (name : String) (attrs : List Attr)
    (cs : List Node) (d : Nat)
    (hdis : tagAllowedB (asciiToLower name) p = false) :
    (p.stripDisallowed = true → walk p (Node.element name attrs cs) d = "") ∧
    (p.stripDisallowed = false →
      walk p (Node.element name attrs cs) d =
        escapeString (renderOpenTag name attrs) ++ walkList p cs (d + 1) ++
          (if isVoidElement (asciiToLower name) then ""
           else escapeString ("</" ++ asciiToLower name ++ ">")) ∧
      (wfNode (Node.element name attrs cs) →
        ∀ s ∈ textsOf (Node.element name attrs cs),
          isInfixStr (walk p (Node.text s) 0) (walk p (Node.element name attrs cs) d))) := by
  have hA : (tagAllowedB (asciiToLower name) p &&
      !(decide (0 < p.maxDepth) && decide (p.maxDepth < d))) = false := by
    rw [hdis]
    rfl
  constructor
  · intro hstrip
    rw [walk_element_disallowed hA, if_pos hstrip]
  · intro hesc
    constructor
    · rw [walk_element_disallowed hA, hesc]
      rw [if_neg (by simp)]
    · intro hwf s hmem
      exact textsOf_occurs p hesc (Node.element name attrs cs) d hwf s hmem

theorem C2_strip_vs_escape_witness :
    walk StrictPolicy (Node.element "div" [] [Node.text "gone"]) 1 = "" ∧
    walk ⟨["b"], [], [], false, false, 0⟩ (Node.element "div" [] [Node.text "x"]) 1 =
      "&lt;div&gt;x&lt;/div&gt;" ∧
    isInfixStr (walk ⟨["b"], [], [], false, false, 0⟩ (Node.text "x") 0)
      (walk ⟨["b"], [], [], false, false, 0⟩ (Node.element "div" [] [Node.text "x"]) 1) := by
  have h1 := C2_strip_vs_escape StrictPolicy "div" [] [Node.text "gone"] 1 (by decide)
  have h2 := C2_strip_vs_escape ⟨["b"], [], [], false, false, 0⟩ "div" [] [Node.text "x"] 1
    (by decide)
  refine ⟨h1.1 rfl, ?_, ?_⟩
  · rw [(h2.2 rfl).1]
    decide
  · exact (h2.2 rfl).2 ⟨fun hv => absurd hv (by decide), trivial, trivial⟩ "x" (by decide)

/-- C3 counterexample: the claim says an element whose depth exceeds
maxDepth is absent from the output together with its entire subtree,
for every policy with maxDepth = N > 0.  With stripDisallowed false
(the escape mode of the default preset, and of the policy below with
allowed tag b and maxDepth 1) the too-deep inner b is escaped, not
removed: its subtree's text "x" remains in the output, as the infix
decomposition in the second conjunct exhibits. -/
theorem C3_maxDepth_cex :
    sanitizeBody ⟨["b"], [], [], false, false, 1⟩
      [Node.element "b" [] [Node.element "b" [] [Node.text "x"]]] =
      "<b>&lt;b&gt;x&lt;/b&gt;</b>" ∧
    isInfixStr "x" (sanitizeBody ⟨["b"], [], [], false, false, 1⟩
      [Node.element "b" [] [Node.element "b" [] [Node.text "x"]]]) := by
  constructor
  · decide
  · exact ⟨"<b>&lt;b&gt;".data, "&lt;/b&gt;</b>".data, by decide⟩

/-- C3 amended: a too-deep element (depth above a positive maxDepth)
never yields live markup: with stripDisallowed true it is dropped with
its entire subtree; with stripDisallowed false it is only escaped to
literal text (children still walked), so its text content survives;
and an element within the limit whose tag is allowed is serialized
normally, so siblings and ancestors at depth at most maxDepth are
preserved. -/
theorem C3_maxDepth (p : Policy) (name : String) (attrs : List Attr)
    (cs : List Node) (d : Nat) :
    (0 < p.maxDepth → p.maxDepth < d → p.stripDisallowed = true →
      walk p (Node.element name attrs cs) d = "") ∧
    (0 < p.maxDepth → p.maxDepth < d → p.stripDisallowed = false →
      walk p (Node.element name attrs cs) d =
        escapeString (renderOpenTag name attrs) ++ walkList p cs (d + 1) ++
          (if isVoidElement (asciiToLower name) then ""
           else escapeString ("</" ++ asciiToLower name ++ ">"))) ∧
    (tagAllowedB (asciiToLower name) p = true → d ≤ p.maxDepth →
      walk p (Node.element name attrs cs) d =
        (if isVoidElement (asciiToLower name) then
          "<" ++ asciiToLower name ++
            attrsOut (filterAttrs attrs (asciiToLower name) p.allowedAttributes (schemeSet p)) ++
            " />"
        else
          "<" ++ asciiToLower name ++
            attrsOut (filterAttrs attrs (asciiToLower name) p.allowedAttributes (schemeSet p)) ++
            ">" ++ walkList p cs (d + 1) ++ "</" ++ asciiToLower name ++ ">")) := by
  refine ⟨fun h0 hlt hstrip => ?_, fun h0 hlt hesc => ?_, fun ht hle => ?_⟩
  · have hA : (tagAllowedB (asciiToLower name) p &&
        !(decide (0 < p.maxDepth) && decide (p.maxDepth < d))) = false := by
      have : (decide (0 < p.maxDepth) && decide (p.maxDepth < d)) = true := by
        simp
        omega
      rw [this]
      simp
    rw [walk_element_disallowed hA, if_pos hstrip]
  · have hA : (tagAllowedB (asciiToLower name) p &&
        !(decide (0 < p.maxDepth) && decide (p.maxDepth < d))) = false := by
      have : (decide (0 < p.maxDepth) && decide (p.maxDepth < d)) = true := by
        simp
        omega
      rw [this]
      simp
    rw [walk_element_disallowed hA, hesc]
    rw [if_neg (by simp)]
  · exact walk_element_allowed ht (Or.inr hle)

theorem C3_maxDepth_witness :
    walk ⟨["b"], [], [], true, false, 1⟩ (Node.element "b" [] [Node.text "deep"]) 2 = "" ∧
    walk ⟨["b"], [], [], false, false, 1⟩ (Node.element "b" [] [Node.text "deep"]) 2 =
      "&lt;b&gt;deep&lt;/b&gt;" ∧
    walk ⟨["b"], [], [], true, false, 1⟩ (Node.element "b" [] [Node.text "ok"]) 1 =
      "<b>ok</b>" := by
  have h1 := C3_maxDepth ⟨["b"], [], [], true, false, 1⟩ "b" [] [Node.text "deep"] 2
  have h2 := C3_maxDepth ⟨["b"], [], [], false, false, 1⟩ "b" [] [Node.text "deep"] 2
  have h3 := C3_maxDepth ⟨["b"], [], [], true, false, 1⟩ "b" [] [Node.text "ok"] 1
  refine ⟨h1.1 (by decide) (by decide) rfl, ?_, ?_⟩
  · rw [h2.2.1 (by decide) (by decide) rfl]
    decide
  · rw [h3.2.2 (by decide) (by decide)]
    decide

/-- C4 counterexample: sanitize is not idempotent for every policy.
With linkify enabled (policy below: tag a allowed with href and rel,
scheme https allowed), sanitizing the text "see https://a.bc" wraps
the URL in an anchor; the output string parses back to the node list
T2 (whose canonical render is exactly that output, per the second
conjunct), and sanitizing T2 linkifies the anchor's text again,
nesting a second anchor: the second output differs from the first. -/
theorem C4_idempotence_cex :
    sanitizeBody ⟨["a"], [("a", ["href", "rel"])], ["https"], false, true, 0⟩
      [Node.text "see https://a.bc"] =
      "see <a href=\"https://a.bc\" rel=\"noopener noreferrer\">https://a.bc</a>" ∧
    renderCList [Node.text "see ",
      Node.element "a" [Attr.mk "href" "https://a.bc", Attr.mk "rel" "noopener noreferrer"]
        [Node.text "https://a.bc"]] =
      "see <a href=\"https://a.bc\" rel=\"noopener noreferrer\">https://a.bc</a>" ∧
    sanitizeBody ⟨["a"], [("a", ["href", "rel"])], ["https"], false, true, 0⟩
      [Node.text "see ",
       Node.element "a" [Attr.mk "href" "https://a.bc", Attr.mk "rel" "noopener noreferrer"]
         [Node.text "https://a.bc"]] =
      "see <a href=\"https://a.bc\" rel=\"noopener noreferrer\"><a href=\"https://a.bc\" rel=\"noopener noreferrer\">https://a.bc</a></a>" ∧
    ("see <a href=\"https://a.bc\" rel=\"noopener noreferrer\">https://a.bc</a>" : String) ≠
      "see <a href=\"https://a.bc\" rel=\"noopener noreferrer\"><a href=\"https://a.bc\" rel=\"noopener noreferrer\">https://a.bc</a></a>" := by
  refine ⟨by decide, by decide, by decide, by decide⟩

/-- C4 amended: for a policy without linkification (and, per the
Policy type, without transformers — a transformer chain can also break
idempotence by re-adding attributes the filter removes), sanitized
output is a fixed point: the canonical parse of the output — the
output tree, whose canonical render is exactly the output string (second
conjunct) — re-sanitizes to the same output (first conjunct). -/
theorem C4_idempotent_no_linkify (p : Policy) (hl : p.linkify = false) (ns : List Node) :
    sanitizeBody p (outTList p ns 1) = sanitizeBody p ns ∧
    renderCList (outTList p ns 1) = sanitizeBody p ns :=
  ⟨walkList_outTList p hl ns 1, renderC_outTList p hl ns 1⟩

theorem C4_idempotent_no_linkify_witness :
    sanitizeBody StrictPolicy
      (outTList StrictPolicy
        [Node.element "b" [] [Node.text "hi"], Node.element "div" [] [Node.text "z"]] 1) =
      sanitizeBody StrictPolicy
        [Node.element "b" [] [Node.text "hi"], Node.element "div" [] [Node.text "z"]] ∧
    sanitizeBody StrictPolicy
      [Node.element "b" [] [Node.text "hi"], Node.element "div" [] [Node.text "z"]] =
      "<b>hi</b>" :=
  ⟨(C4_idempotent_no_linkify StrictPolicy rfl
      [Node.element "b" [] [Node.text "hi"], Node.element "div" [] [Node.text "z"]]).1,
    by decide⟩

/-- C1 counterexample, two independent refutations of the claim as
stated.  First, scheme smuggling through the decode re-parse, with the
default policy, no linkify, no transformers: the value
javascript:alert(1)// followed by a quote, a closing bracket and a
second anchor spelling an allowed https URL makes htmlDecodeMinimal
return the injected last anchor's href, so schemeAllowed accepts the
value (third conjunct) and it survives as a live href on the allowed
a element (first and second conjuncts) — although the value's scheme
under the claim's own normalization (trim, honest entity-decode,
control-strip, lower-case) is javascript (fourth conjunct), which is
not in the allowed set (fifth conjunct); a browser receiving the
attribute decodes it back to that functioning javascript URL.  Second,
the linkifier runs regardless of the scheme allow-list: with linkify
on and only mailto allowed, the text "https://a.bc" becomes a live
anchor with an https href (sixth conjunct) that schemeAllowed rejects
under the policy (last conjunct). -/
theorem C1_scheme_cex :
    sanitizeBody DefaultPolicy
      [Node.element "a" [Attr.mk "href" "javascript:alert(1)//\"><a href=\"https://ok"]
        [Node.text "click"]] =
      "<a href=\"javascript:alert(1)//&#34;&gt;&lt;a href=&#34;https://ok\">click</a>" ∧
    Attr.mk "href" "javascript:alert(1)//\"><a href=\"https://ok" ∈
      liveURLAttrsList (outTList DefaultPolicy
        [Node.element "a" [Attr.mk "href" "javascript:alert(1)//\"><a href=\"https://ok"]
          [Node.text "click"]] 1) ∧
    schemeAllowed "javascript:alert(1)//\"><a href=\"https://ok"
      (schemeSet DefaultPolicy) = true ∧
    parseURLScheme (stripCtrl (asciiToLower (String.mk (decodeLoop
        (trimSpace "javascript:alert(1)//\"><a href=\"https://ok").data.length
        (trimSpace "javascript:alert(1)//\"><a href=\"https://ok").data)))) =
      some "javascript" ∧
    (schemeSet DefaultPolicy).contains "javascript" = false ∧
    sanitizeBody ⟨["a"], [("a", ["href", "rel"])], ["mailto"], false, true, 0⟩
      [Node.text "https://a.bc"] =
      "<a href=\"https://a.bc\" rel=\"noopener noreferrer\">https://a.bc</a>" ∧
    schemeAllowed "https://a.bc"
      (schemeSet ⟨["a"], [("a", ["href", "rel"])], ["mailto"], false, true, 0⟩) = false := by
  refine ⟨by decide, by decide, by decide, by decide, by decide, by decide, by decide⟩

/-- C1 amended: with linkify disabled (and, per the Policy type, no
transformers), every href/src/action attribute on any element of the
output tree — whose canonical render is exactly the sanitize output
(second conjunct) — passed schemeAllowed: its value as the validator
normalizes it (trimmed, decoded by htmlDecodeMinimal, control-stripped,
lower-cased) parses to a scheme that is empty (a relative reference)
or in the policy's lower-cased scheme set (first conjunct); any value
whose normalized form parses with an empty scheme is accepted
unconditionally (third conjunct); and for values containing no double
quote the validator's decode is the honest entity decode (last
conjunct), so for those values the claim's normalized-scheme soundness
holds as stated.  Values containing a double quote can smuggle a
disallowed scheme through the decode re-parse (see the
counterexample), so the claim is restricted to quote-free values. -/
theorem C1_scheme_soundness (p : Policy) (hl : p.linkify = false) (ns : List Node) (a : Attr)
    (ha : a ∈ liveURLAttrsList (outTList p ns 1)) :
    (∃ sch, parseURLScheme (normalizeURL a.val) = some sch ∧
      (sch = "" ∨ (schemeSet p).contains (asciiToLower sch) = true)) ∧
    renderCList (outTList p ns 1) = sanitizeBody p ns ∧
    (∀ (v : String) (S : List String),
      parseURLScheme (normalizeURL v) = some "" → schemeAllowed v S = true) ∧
    (∀ (v : String), v.data.contains (Char.ofNat 34) = false →
      htmlDecodeMinimal v =
        (if String.mk (decodeLoop v.data.length v.data) = "" then v
         else String.mk (decodeLoop v.data.length v.data))) := by
  refine ⟨schemeAllowed_spec (outTList_schemes p ns 1 a ha), renderC_outTList p hl ns 1,
    fun _ S h => schemeAllowed_relative S h, fun v hq => ?_⟩
  rw [htmlDecodeMinimal, if_neg (by rw [hq]; exact Bool.false_ne_true)]

theorem C1_scheme_soundness_witness :
    (∃ sch, parseURLScheme (normalizeURL "https://x.yz") = some sch ∧
      (sch = "" ∨ (schemeSet DefaultPolicy).contains (asciiToLower sch) = true)) ∧
    renderCList (outTList DefaultPolicy
        [Node.element "a" [Attr.mk "href" "https://x.yz"] [Node.text "link"]] 1) =
      sanitizeBody DefaultPolicy
        [Node.element "a" [Attr.mk "href" "https://x.yz"] [Node.text "link"]] :=
  ⟨(C1_scheme_soundness DefaultPolicy rfl
      [Node.element "a" [Attr.mk "href" "https://x.yz"] [Node.text "link"]]
      (Attr.mk "href" "https://x.yz") (by decide)).1,
    (C1_scheme_soundness DefaultPolicy rfl
      [Node.element "a" [Attr.mk "href" "https://x.yz"] [Node.text "link"]]
      (Attr.mk "href" "https://x.yz") (by decide)).2.1⟩

/-- C6: the transformer pipeline.  The chain runs strictly in
configured order on the element after attribute filtering (the node
handed to runTransformers below carries filterAttrs output) and before
any emission: when a prefix of the configured chain maps the filtered
element to m and the next transformer returns the deletion signal, the
remaining transformers are skipped (composition over list append is
Option.bind, second conjunct) and the walk emits nothing at all for
the node or its subtree (first conjunct); when the chain keeps a node,
the open tag is emitted with the transformed node's attributes and its
children are the ones walked (third conjunct, non-void case). -/
theorem C6_transformer_pipeline (pt : PolicyT) (f d : Nat) (name : String)
    (attrs : List Attr) (cs : List Node)
    (ts1 ts2 : List (Node → Option Node)) (t : Node → Option Node) (m : Node)
    (hchain : pt.transformers = ts1 ++ t :: ts2)
    (hallowed : (tagAllowedB (asciiToLower name) pt.toPolicy &&
      !(decide (0 < pt.maxDepth) && decide (pt.maxDepth < d))) = true)
    (hpre : runTransformers ts1 (Node.element name
      (filterAttrs attrs (asciiToLower name) pt.allowedAttributes (schemeSet pt.toPolicy)) cs) =
      some m)
    (hveto : t m = none) :
    walkF pt (f + 1) (Node.element name attrs cs) d = some "" ∧
    (∀ (us1 us2 : List (Node → Option Node)) (x : Node),
      runTransformers (us1 ++ us2) x = (runTransformers us1 x).bind (runTransformers us2)) ∧
    (∀ (n2 : Node), runTransformers pt.transformers (Node.element name
        (filterAttrs attrs (asciiToLower name) pt.allowedAttributes (schemeSet pt.toPolicy)) cs) =
        some n2 → isVoidElement (asciiToLower name) = false →
      walkF pt (f + 1) (Node.element name attrs cs) d =
        (walkListF pt f (childrenOf n2) (d + 1)).map (fun body =>
          "<" ++ asciiToLower name ++ attrsOut (attrsOf n2) ++ ">" ++ body ++
            "</" ++ asciiToLower name ++ ">")) := by
  have hkill : runTransformers pt.transformers (Node.element name
      (filterAttrs attrs (asciiToLower name) pt.allowedAttributes (schemeSet pt.toPolicy)) cs) =
      none := by
    rw [hchain]
    exact runTransformers_veto hpre hveto
  refine ⟨?_, fun us1 us2 x => runTransformers_append us1 us2 x, ?_⟩
  · simp only [walkF, hallowed, if_true, hkill]
  · intro n2 hn2 hv
    simp only [walkF, hallowed, if_true, hn2, hv, Bool.false_eq_true, if_false]
    cases walkListF pt f (childrenOf n2) (d + 1) with
    | none => rfl
    | some body => rfl

theorem C6_transformer_pipeline_witness :
    walkF ⟨⟨["b"], [], [], false, false, 0⟩,
        [fun n => some n, fun _ => none, fun n => some n]⟩ 5
      (Node.element "b" [] [Node.text "remove me"]) 1 = some "" :=
  (C6_transformer_pipeline ⟨⟨["b"], [], [], false, false, 0⟩,
      [fun n => some n, fun _ => none, fun n => some n]⟩ 4 1 "b" [] [Node.text "remove me"]
      [fun n => some n] [fun n => some n] (fun _ => none)
      (Node.element "b" [] [Node.text "remove me"])
      rfl (by decide) rfl rfl).1

end HtmlSanitizer
